import Mathlib

/-!
Shallow embedding of the market-data collection pipeline of
src/information_scraper.py.

Modelling conventions:
* Python strings are modelled as List Char.
* Python floats are modelled as exact rationals (ℚ); Python round(x, 2) is
  modelled as decimal rounding to two places with ties to even, and the
  fixed-point format f-strings as exact decimal rendering.
* The regular expressions of the source are deterministic (every repeated
  character class is followed by a character outside the class), so
  re.findall is modelled by an explicit leftmost, non-overlapping,
  maximal-munch scanner.
* A Python exception escaping a pure function (float() on a malformed
  numeral) is modelled by an Option result, none standing for the raised
  exception.
* Filesystem and browser effects are modelled by explicit state values: the
  canonical CSV as a list of records, the failure queue as a list of ids,
  and a page-fetch attempt as a function from attempt index to observed
  markup (for the polling loop) or as an abstract outcome function (for the
  workflow models).
-/

namespace Scraper

/-- Decimal digit predicate, the character class of a backslash-d atom. -/
def isDig (c : Char) : Bool := c.isDigit

/-- Character class of the numeric atom of the row grammars: digits and dot. -/
def isDigDot (c : Char) : Bool := c.isDigit || c = '.'

/-- The single-quote character, used by the row grammars as tooltip delimiter. -/
def qc : Char := Char.ofNat 39

/-- Value of a string of decimal digits, as int() reads a matched digit group. -/
def parseNat (ds : List Char) : Nat :=
  ds.foldl (fun a c => 10 * a + (c.toNat - 48)) 0

/-- Decimal digits of a natural number, most significant first (fuel-driven). -/
def natDigitsAux : Nat → Nat → List Char
  | 0, _ => []
  | _ + 1, 0 => []
  | f + 1, n => natDigitsAux f (n / 10) ++ [Char.ofNat (48 + n % 10)]

/-- Decimal rendering of a natural number. -/
def natToChars (n : Nat) : List Char :=
  if n = 0 then ['0'] else natDigitsAux (n + 1) n

/-- Left zero-padding to a minimum width, as the 0Nd format specifiers do. -/
def padZeros (w : Nat) (ds : List Char) : List Char :=
  List.replicate (w - ds.length) '0' ++ ds

/-- Rendering of f-string piece {n:04d}. -/
def fmt04 (n : Nat) : List Char := padZeros 4 (natToChars n)

/-- Rendering of f-string piece {n:02d}. -/
def fmt02 (n : Nat) : List Char := padZeros 2 (natToChars n)

/-- Floor of a rational, computably (num / den rounds toward minus infinity). -/
def ratFloor (x : ℚ) : ℤ := x.num / (x.den : ℤ)

/-- Nearest integer with ties to even, the rounding used by Python round(). -/
def roundHalfEven (x : ℚ) : ℤ :=
  if x - (ratFloor x : ℚ) < 1 / 2 then ratFloor x
  else if 1 / 2 < x - (ratFloor x : ℚ) then ratFloor x + 1
  else if ratFloor x % 2 = 0 then ratFloor x else ratFloor x + 1

/-- Model of Python round(x, 2): decimal rounding to two places. -/
def round2 (x : ℚ) : ℚ := (roundHalfEven (100 * x) : ℚ) / 100

/-- Model of the f-string format {p:.2f}: two fixed fractional digits. -/
def fmtFixed2 (p : ℚ) : List Char :=
  let n := roundHalfEven (100 * p)
  let a := n.natAbs
  let body := natToChars (a / 100) ++ '.' :: fmt02 (a % 100)
  if n < 0 then '-' :: body else body

/-- Matching a literal piece of a pattern: returns the rest of the input. -/
def matchLit : List Char → List Char → Option (List Char)
  | [], s => some s
  | _ :: _, [] => none
  | l :: ls, c :: cs => if l = c then matchLit ls cs else none

/-- Maximal munch of a nonempty run of class characters, as a greedy
one-or-more character-class atom matches when the following pattern
character lies outside the class. Returns the captured run and the rest. -/
def munch1 (p : Char → Bool) (s : List Char) : Option (List Char × List Char) :=
  let tk := s.takeWhile p
  if tk.isEmpty then none else some (tk, s.dropWhile p)

/-- Splits the input at the first occurrence of a delimiter string: returns
the text before it and the text after it. Models a lazy dot-star capture
followed by the literal delimiter. -/
def splitAtSubstr (pat : List Char) : List Char → Option (List Char × List Char)
  | [] => if pat.isEmpty then some ([], []) else none
  | c :: cs =>
    if pat.isPrefixOf (c :: cs) then some ([], (c :: cs).drop pat.length)
    else
      match splitAtSubstr pat cs with
      | some (pre, post) => some (c :: pre, post)
      | none => none

/-- Leftmost, non-overlapping scan of re.findall: at each position try the
matcher; on success emit the captures and resume after the match, otherwise
advance one character. Fuel bounds the recursion; every matcher used here
consumes at least one character, so fuel equal to the input length is exact. -/
def findAll (m : List Char → Option (α × List Char)) : Nat → List Char → List α
  | 0, _ => []
  | _ + 1, [] => []
  | fuel + 1, c :: cs =>
    match m (c :: cs) with
    | some (a, rest) => a :: findAll m fuel rest
    | none => findAll m fuel cs

/-- Captures of one quartile-grammar row
(the row_pattern regex of extract_value_sales_rows). -/
structure ValueRowMatch where
  year : List Char
  month : List Char
  day : List Char
  low : List Char
  q1 : List Char
  q3 : List Char
  high : List Char
  tooltip : List Char
deriving DecidableEq

/-- Captures of one single-price-grammar row
(the row_pattern regex of parse_single_price_block). -/
structure SingleRowMatch where
  year : List Char
  month : List Char
  day : List Char
  price : List Char
  priceText : List Char
deriving DecidableEq

/-- Captured year, month and day digit strings of a new Date literal. -/
structure DateTriple where
  year : List Char
  month : List Char
  day : List Char
deriving DecidableEq

/-- Matcher for the shared date prefix of both row grammars:
the literal bracket new Date(, three comma-separated digit groups, and
the closing paren with comma. -/
def tryDateTriple (s : List Char) : Option (DateTriple × List Char) :=
  (matchLit (r"[new Date(").toList s).bind fun s =>
  (munch1 isDig s).bind fun (y, s) =>
  (matchLit (r", ").toList s).bind fun s =>
  (munch1 isDig s).bind fun (mo, s) =>
  (matchLit (r", ").toList s).bind fun s =>
  (munch1 isDig s).bind fun (d, s) =>
  (matchLit ((r"), ").toList) s).map fun s =>
  (⟨y, mo, d⟩, s)

/-- Matcher for one numeric group followed by a comma and a space. -/
def tryNumComma (s : List Char) : Option (List Char × List Char) :=
  (munch1 isDigDot s).bind fun (n, s) =>
  (matchLit (r", ").toList s).map fun s =>
  (n, s)

/-- Matcher for one quartile row literal, the regex
backslash-bracket new Date(d+, d+, d+), num, num, num, num, quoted-text
of the source, with maximal munch standing for the greedy groups. -/
def tryValueRow (s : List Char) : Option (ValueRowMatch × List Char) :=
  (tryDateTriple s).bind fun (dt, s) =>
  (tryNumComma s).bind fun (lo, s) =>
  (tryNumComma s).bind fun (q1c, s) =>
  (tryNumComma s).bind fun (q3c, s) =>
  (munch1 isDigDot s).bind fun (hi, s) =>
  (matchLit [',', ' ', qc] s).bind fun s =>
  (munch1 (fun c => c ≠ qc) s).bind fun (tip, s) =>
  (matchLit [qc, ']'] s).map fun s =>
  (⟨dt.year, dt.month, dt.day, lo, q1c, q3c, hi, tip⟩, s)

/-- Matcher for one single-price row literal, the regex
backslash-bracket new Date(d+, d+, d+), num, quoted-dollar-num, null, null
of the source. -/
def trySingleRow (s : List Char) : Option (SingleRowMatch × List Char) :=
  (tryDateTriple s).bind fun (dt, s) =>
  (munch1 isDigDot s).bind fun (pr, s) =>
  (matchLit [',', ' ', qc, '$'] s).bind fun s =>
  (munch1 isDigDot s).bind fun (pt, s) =>
  (matchLit ([qc] ++ (r", null, null]").toList) s).map fun s =>
  (⟨dt.year, dt.month, dt.day, pr, pt⟩, s)

/-- Matcher for one data.addRows block, the regex
data backslash-dot addRows backslash-paren-bracket lazy-dot-star
bracket-paren-semicolon of scrape_and_parse_value_sales: the capture is the
text up to the first closing sequence. -/
def tryBlock (s : List Char) : Option (List Char × List Char) :=
  (matchLit (r"data.addRows([").toList s).bind fun s =>
  splitAtSubstr ((r"]);").toList) s

/-- All quartile-row matches of a text, in document order. -/
def findValueRows (s : List Char) : List ValueRowMatch :=
  findAll tryValueRow s.length s

/-- All single-price-row matches of a text, in document order. -/
def findSingleRows (s : List Char) : List SingleRowMatch :=
  findAll trySingleRow s.length s

/-- All data.addRows blocks of a page markup, in document order
(the blocks list of scrape_and_parse_value_sales). -/
def findBlocks (s : List Char) : List (List Char) :=
  findAll tryBlock s.length s

/-- Grouping of a digits-and-dots string into the runs between dots. -/
def splitOnDot : List Char → List (List Char)
  | [] => [[]]
  | c :: cs =>
    if c = '.' then [] :: splitOnDot cs
    else
      match splitOnDot cs with
      | [] => [[c]]
      | g :: gs => (c :: g) :: gs

/-- Value of a matched numeric group, as Python float() reads it: valid when
the digits-and-dots string has at most one dot and at least one digit,
invalid (a raised ValueError, modelled as none) otherwise. -/
def parseDecimal (s : List Char) : Option ℚ :=
  match splitOnDot s with
  | [ip] => if ip.isEmpty then none else some (parseNat ip : ℚ)
  | [ip, fp] =>
    if ip.isEmpty && fp.isEmpty then none
    else some ((parseNat ip : ℚ) + (parseNat fp : ℚ) / (10 : ℚ) ^ fp.length)
  | _ => none

/-- One parsed row tuple (date, low, q1, q3, high, tooltip) of the source. -/
structure MarketRow where
  date : List Char
  low : ℚ
  q1 : ℚ
  q3 : ℚ
  high : ℚ
  tooltip : List Char
deriving DecidableEq

/-- One persisted record tuple (minifig_id, date, low, q1, q3, high, tooltip).
The CSV stores every field as text; that stringification is injective on
records, so membership tests on stringified rows in the source coincide with
record equality here. -/
structure MarketRecord where
  sw : List Char
  date : List Char
  low : ℚ
  q1 : ℚ
  q3 : ℚ
  high : ℚ
  tooltip : List Char
deriving DecidableEq

/-- Prefixing a parsed row with the minifig id, the (minifig_id, *row) splat. -/
def recordOfRow (sw : List Char) (r : MarketRow) : MarketRecord :=
  ⟨sw, r.date, r.low, r.q1, r.q3, r.high, r.tooltip⟩

/-- Date text of the quartile grammar: f-string year:04d-month+1:02d-01,
normalised to the first day of the month. -/
def monthDateStr (year month : Nat) : List Char :=
  fmt04 year ++ '-' :: fmt02 (month + 1) ++ ('-' :: ['0', '1'])

/-- Date text of the single-price grammar: f-string
year:04d-month+1:02d-day:02d, keeping the stated day. -/
def dayDateStr (year month day : Nat) : List Char :=
  fmt04 year ++ '-' :: fmt02 (month + 1) ++ '-' :: fmt02 day

/-- Derived low amount of a single-price row: round(0.9 * price, 2). -/
def deriveLow (price : ℚ) : ℚ := round2 (0.9 * price)

/-- Derived first-quartile amount of a single-price row: round(0.8 * price, 2). -/
def deriveQ1 (price : ℚ) : ℚ := round2 (0.8 * price)

/-- Derived third-quartile amount of a single-price row: round(1.1 * price, 2). -/
def deriveQ3 (price : ℚ) : ℚ := round2 (1.1 * price)

/-- Derived high amount of a single-price row: round(1.2 * price, 2). -/
def deriveHigh (price : ℚ) : ℚ := round2 (1.2 * price)

/-- Tooltip of a single-price row: f-string dollar price:.2f followed by the
approximated-quartiles tag. -/
def approxTooltip (price : ℚ) : List Char :=
  '$' :: fmtFixed2 price ++ (r" (approximated quartiles)").toList

/-- Row built from one quartile-grammar match: the loop body of
extract_value_sales_rows. The day capture is converted but discarded by the
date normalisation. -/
def mkValueRow (m : ValueRowMatch) : Option MarketRow :=
  (parseDecimal m.low).bind fun lo =>
  (parseDecimal m.q1).bind fun q1v =>
  (parseDecimal m.q3).bind fun q3v =>
  (parseDecimal m.high).map fun hi =>
  ⟨monthDateStr (parseNat m.year) (parseNat m.month), lo, q1v, q3v, hi, m.tooltip⟩

/-- Row built from one single-price-grammar match: the loop body of
parse_single_price_block. Only the first numeric capture is converted; the
quoted dollar amount is matched but unused, as in the source. -/
def mkSingleRow (m : SingleRowMatch) : Option MarketRow :=
  (parseDecimal m.price).map fun price =>
  ⟨dayDateStr (parseNat m.year) (parseNat m.month) (parseNat m.day),
   deriveLow price, deriveQ1 price, deriveQ3 price, deriveHigh price,
   approxTooltip price⟩

/-- Mapping a fallible builder over a match list; none models the exception
raised by the first failing float() conversion, which discards all rows. -/
def listMapOpt (f : α → Option β) : List α → Option (List β)
  | [] => some []
  | a :: as =>
    match f a with
    | none => none
    | some b =>
      match listMapOpt f as with
      | none => none
      | some bs => some (b :: bs)

/-- The extract_value_sales_rows function of the source: one row per
quartile-grammar match, in match order. -/
def extract_value_sales_rows (jsDataBlock : List Char) : Option (List MarketRow) :=
  listMapOpt mkValueRow (findValueRows jsDataBlock)

/-- The parse_single_price_block function of the source: one row per
single-price-grammar match, in match order. -/
def parse_single_price_block (jsDataBlock : List Char) : Option (List MarketRow) :=
  listMapOpt mkSingleRow (findSingleRows jsDataBlock)

/-- Test of the textual readiness marker data.addRows([ in page markup. -/
def containsMarker (html : List Char) : Bool :=
  (splitAtSubstr ((r"data.addRows([").toList) html).isSome

/-- Outcome of the readiness poll: markup in which the marker was seen, or a
timeout carrying the last observed markup (which the source writes to the
debug_timeout snapshot file before returning no rows). -/
inductive PollResult where
  | found (html : List Char)
  | timeout (lastHtml : List Char)
deriving DecidableEq

/-- The polling loop of scrape_and_parse_value_sales: at attempt index i the
rendered document evaluates to snap i; the loop stops at the first marker
hit, and times out when the attempt budget is exhausted. -/
def pollGo (snap : Nat → List Char) : Nat → Nat → List Char → PollResult
  | _, 0, last => PollResult.timeout last
  | i, n + 1, _ =>
    if containsMarker (snap i) then PollResult.found (snap i)
    else pollGo snap (i + 1) n (snap i)

/-- The attempt budget of the polling loop: range(30). -/
def pollBudget : Nat := 30

/-- The full poll for one page load: 30 attempts starting from the empty
initial markup. -/
def pollLoop (snap : Nat → List Char) : PollResult := pollGo snap 0 pollBudget []

/-- The block-selection and parsing part of scrape_and_parse_value_sales,
applied to fetched markup: fewer than two blocks and none at all gives no
rows; fewer than two but one present tries the single-price grammar on block
zero; otherwise the quartile grammar parses block index one. -/
def parseValueSalesHtml (minifigId html : List Char) : Option (List MarketRecord) :=
  match findBlocks html with
  | [] => some []
  | [b0] => (parse_single_price_block b0).map (List.map (recordOfRow minifigId))
  | _ :: b1 :: _ => (extract_value_sales_rows b1).map (List.map (recordOfRow minifigId))

/-- The scrape_and_parse_value_sales function: poll the rendered page, give
no rows on timeout, otherwise extract and parse blocks from the markup. -/
def scrape_and_parse_value_sales (minifigId : List Char) (snap : Nat → List Char) :
    Option (List MarketRecord) :=
  match pollLoop snap with
  | PollResult.timeout _ => some []
  | PollResult.found html => parseValueSalesHtml minifigId html

/-- Classification of one per-id attempt outcome as the orchestrator sees
it: an exception from the scrape or an empty row list is a failure. -/
def attemptFailed (att : List Char → Except Unit (List MarketRecord))
    (mid : List Char) : Bool :=
  match att mid with
  | Except.error _ => true
  | Except.ok rows => rows.isEmpty

/-- State of the batch workflow: collected rows and the entries appended to
the failure-queue file. -/
structure BatchState where
  allRows : List MarketRecord
  failLog : List (List Char)
deriving DecidableEq

/-- One iteration of the batch loop: extend collected rows on a non-empty
scrape, append the id to the failure queue on an exception or on no data. -/
def batchStep (att : List Char → Except Unit (List MarketRecord))
    (st : BatchState) (mid : List Char) : BatchState :=
  match att mid with
  | Except.ok rows =>
    if rows.isEmpty then ⟨st.allRows, st.failLog ++ [mid]⟩
    else ⟨st.allRows ++ rows, st.failLog⟩
  | Except.error _ => ⟨st.allRows, st.failLog ++ [mid]⟩

/-- The batch workflow over a list of ids. -/
def batchRun (att : List Char → Except Unit (List MarketRecord))
    (ids : List (List Char)) : BatchState :=
  ids.foldl (batchStep att) ⟨[], []⟩

/-- The batch CSV write: when any rows were collected the canonical file is
opened in truncating write mode and receives exactly the collected rows, the
prior contents being discarded; with no rows the file is left untouched. -/
def batchCsvWrite (prior collected : List MarketRecord) : List MarketRecord :=
  if collected.isEmpty then prior else collected

/-- State of the single-test workflow: the rows written to the CSV (none
when nothing was written) and the entries appended to the failure queue. -/
structure SingleTestState where
  csvWritten : Option (List MarketRecord)
  failLog : List (List Char)
deriving DecidableEq

/-- The single-test workflow for one id: print rows and overwrite the CSV on
success; on an exception only a traceback is printed. No branch touches the
failure-queue file. -/
def singleTestRun (att : List Char → Except Unit (List MarketRecord))
    (mid : List Char) : SingleTestState :=
  match att mid with
  | Except.ok rows => ⟨if rows.isEmpty then none else some rows, []⟩
  | Except.error _ => ⟨none, []⟩

/-- The hardcoded id of the single-test workflow. -/
def testMinifigId : List Char := (r"SW0202b").toList

/-- State of the retry-failures workflow: rows appended to the canonical
CSV this run, the retained failure list, and the per-id success count. -/
structure RetryState where
  appendedRows : List MarketRecord
  stillFailed : List (List Char)
  appendedCount : Nat
deriving DecidableEq

/-- One iteration of the retry loop. existing is the CSV content read once
at the start of the run and never refreshed. An id is retained exactly when
the attempt raises or yields no rows; rows already present in existing are
filtered out before appending, and an all-duplicates outcome appends nothing
while still dropping the id. -/
def retryStep (att : List Char → Except Unit (List MarketRecord))
    (existing : List MarketRecord) (st : RetryState) (mid : List Char) : RetryState :=
  match att mid with
  | Except.error _ => ⟨st.appendedRows, st.stillFailed ++ [mid], st.appendedCount⟩
  | Except.ok rows =>
    if rows.isEmpty then ⟨st.appendedRows, st.stillFailed ++ [mid], st.appendedCount⟩
    else
      let newRows := rows.filter fun r => !(existing.contains r)
      if newRows.isEmpty then st
      else ⟨st.appendedRows ++ newRows, st.stillFailed, st.appendedCount + 1⟩

/-- The retry-failures workflow over the failure queue, with the CSV content
read once at the start. -/
def retryRun (att : List Char → Except Unit (List MarketRecord))
    (existing : List MarketRecord) (ids : List (List Char)) : RetryState :=
  ids.foldl (retryStep att existing) ⟨[], [], 0⟩

/-- One deduplicating append against the current store content: the
append-only write of the retry workflow, and the RecordStore.Append model. -/
def appendDedup (csv rows : List MarketRecord) : List MarketRecord :=
  csv ++ rows.filter fun r => !(csv.contains r)

/-- A concrete minifig id, the first entry of the MINIFIG_IDS constant. -/
def swId : List Char := (r"SW0091").toList

/-- Concrete single-price row text with price 18.00, the row of the spec
scenario for the single-price grammar. -/
def singlePriceRowText : List Char :=
  (r"[new Date(2008, 3, 28), 18.00, ").toList ++ qc :: '$' :: (r"18.00").toList
    ++ qc :: (r", null, null]").toList

/-- The captures of the single match in singlePriceRowText. -/
def singleMatch18 : SingleRowMatch :=
  ⟨(r"2008").toList, (r"3").toList, (r"28").toList, (r"18.00").toList, (r"18.00").toList⟩

/-- The row the source builds from singlePriceRowText: date 2008-04-28 and
derived amounts 16.20, 14.40, 19.80, 21.60 around price 18.00. -/
def singleRow18 : MarketRow :=
  ⟨(r"2008-04-28").toList, 162 / 10, 144 / 10, 198 / 10, 216 / 10,
   (r"$18.00 (approximated quartiles)").toList⟩

/-- Concrete quartile row text with the comma-space separators the grammar
requires inside new Date. -/
def valueRowTextSpaces : List Char :=
  (r"[new Date(2022, 0, 1), 79.35, 81.00, 85.96, 89.27, ").toList
    ++ qc :: (r"January 2022   $81.00 - $85.96").toList ++ [qc, ']']

/-- The same row text written as the spec scenario writes it, without spaces
after the commas inside new Date. -/
def valueRowTextNoSpaces : List Char :=
  (r"[new Date(2022,0,1), 79.35, 81.00, 85.96, 89.27, ").toList
    ++ qc :: (r"January 2022   $81.00 - $85.96").toList ++ [qc, ']']

/-- The captures of the single match in valueRowTextSpaces. -/
def valueMatch2022 : ValueRowMatch :=
  ⟨(r"2022").toList, (r"0").toList, (r"1").toList, (r"79.35").toList, (r"81.00").toList,
   (r"85.96").toList, (r"89.27").toList,
   (r"January 2022   $81.00 - $85.96").toList⟩

/-- The record row of the quartile spec scenario: date normalised to
2022-01-01 and the four amounts taken verbatim. -/
def valueRow2022 : MarketRow :=
  ⟨(r"2022-01-01").toList, 79.35, 81, 85.96, 89.27,
   (r"January 2022   $81.00 - $85.96").toList⟩

/-- Concrete quartile row text whose zero-based month field is 12. -/
def valueRowTextMonth12 : List Char :=
  (r"[new Date(2022, 12, 1), 1.00, 2.00, 3.00, 4.00, ").toList ++ [qc, 'x', qc, ']']

/-- The captures of the single match in valueRowTextMonth12. -/
def valueMatch12 : ValueRowMatch :=
  ⟨(r"2022").toList, (r"12").toList, (r"1").toList, (r"1.00").toList, (r"2.00").toList,
   (r"3.00").toList, (r"4.00").toList, ['x']⟩

/-- The row the source builds from valueRowTextMonth12: its date text names
the non-calendar month 13. -/
def valueRowMonth13 : MarketRow :=
  ⟨(r"2022-13-01").toList, 1, 2, 3, 4, ['x']⟩

/-- Concrete single-price row text whose numeric field 1..5 matches the
grammar but is not a valid float literal. -/
def badSingleRowText : List Char :=
  (r"[new Date(2008, 3, 28), 1..5, ").toList ++ qc :: '$' :: (r"1..5").toList
    ++ qc :: (r", null, null]").toList

/-- Markup with exactly one block, containing badSingleRowText. -/
def badHtml : List Char :=
  (r"data.addRows([").toList ++ badSingleRowText ++ (r"]);").toList

/-- Markup with exactly one block whose text matches no row grammar. -/
def noRowHtml : List Char :=
  (r"data.addRows([xyz]);").toList

/-- A page snapshot sequence for the poll model: the marker appears at
attempt index 2 and at no other attempt. -/
def snapAtTwo : Nat → List Char :=
  fun i => if i = 2 then (r"data.addRows([").toList else []

/-- A concrete record with whole-number amounts, used by the workflow
scenarios. -/
def recA : MarketRecord :=
  ⟨swId, (r"2022-01-01").toList, 1, 2, 3, 4, ['t']⟩

/-- An attempt outcome function whose every attempt scrapes the single
record recA. -/
def attOkA : List Char → Except Unit (List MarketRecord) := fun _ => Except.ok [recA]

/-- An attempt outcome function whose every attempt raises. -/
def attErr : List Char → Except Unit (List MarketRecord) := fun _ => Except.error ()

/-- An attempt outcome function whose every attempt extracts zero records. -/
def attEmpty : List Char → Except Unit (List MarketRecord) := fun _ => Except.ok []

end Scraper

namespace Scraper

/-- The computable floor agrees with the floor of the rationals. -/
theorem ratFloor_eq (x : ℚ) : ratFloor x = ⌊x⌋ := by
  rw [Rat.floor_def]; rfl

/-- The floor is a lower bound. -/
theorem ratFloor_le (x : ℚ) : (ratFloor x : ℚ) ≤ x := by
  rw [ratFloor_eq]; exact Int.floor_le x

/-- The floor plus one is an upper bound. -/
theorem lt_ratFloor_add_one (x : ℚ) : x < (ratFloor x : ℚ) + 1 := by
  rw [ratFloor_eq]; exact_mod_cast Int.lt_floor_add_one x

/-- Half-even rounding moves a value up by at most one half. -/
theorem roundHalfEven_le (x : ℚ) : (roundHalfEven x : ℚ) ≤ x + 1 / 2 := by
  have h1 := ratFloor_le x
  have h2 := lt_ratFloor_add_one x
  rw [roundHalfEven]
  split_ifs with ha hb hc
  · linarith
  · push_cast
    linarith
  · linarith
  · push_cast
    linarith

/-- Half-even rounding moves a value down by at most one half. -/
theorem roundHalfEven_ge (x : ℚ) : x - 1 / 2 ≤ (roundHalfEven x : ℚ) := by
  have h1 := ratFloor_le x
  have h2 := lt_ratFloor_add_one x
  rw [roundHalfEven]
  split_ifs with ha hb hc
  · linarith
  · push_cast
    linarith
  · linarith
  · push_cast
    linarith

/-- Arguments more than one apart round to strictly ordered integers. -/
theorem roundHalfEven_lt_roundHalfEven {a b : ℚ} (h : a + 1 < b) :
    roundHalfEven a < roundHalfEven b := by
  have h1 := roundHalfEven_le a
  have h2 := roundHalfEven_ge b
  exact_mod_cast show (roundHalfEven a : ℚ) < roundHalfEven b by linarith

/-- Arguments at least one apart round to ordered integers. -/
theorem roundHalfEven_le_roundHalfEven {a b : ℚ} (h : a + 1 ≤ b) :
    roundHalfEven a ≤ roundHalfEven b := by
  have h1 := roundHalfEven_le a
  have h2 := roundHalfEven_ge b
  exact_mod_cast show (roundHalfEven a : ℚ) ≤ roundHalfEven b by linarith

/-- A rounding stays strictly below any integer more than a half above. -/
theorem roundHalfEven_lt_int {a : ℚ} {k : ℤ} (h : a + 1 / 2 < (k : ℚ)) :
    roundHalfEven a < k := by
  have h1 := roundHalfEven_le a
  exact_mod_cast show (roundHalfEven a : ℚ) < k by linarith

/-- A rounding stays strictly above any integer more than a half below. -/
theorem int_lt_roundHalfEven {a : ℚ} {k : ℤ} (h : (k : ℚ) + 1 / 2 < a) :
    k < roundHalfEven a := by
  have h1 := roundHalfEven_ge a
  exact_mod_cast show (k : ℚ) < roundHalfEven a by linarith

/-- A rounding stays below any integer at least a half above. -/
theorem roundHalfEven_le_int {a : ℚ} {k : ℤ} (h : a + 1 / 2 ≤ (k : ℚ)) :
    roundHalfEven a ≤ k := by
  have h1 := roundHalfEven_le a
  exact_mod_cast show (roundHalfEven a : ℚ) ≤ k by linarith

/-- A rounding stays above any integer at least a half below. -/
theorem int_le_roundHalfEven {a : ℚ} {k : ℤ} (h : (k : ℚ) + 1 / 2 ≤ a) :
    k ≤ roundHalfEven a := by
  have h1 := roundHalfEven_ge a
  exact_mod_cast show (k : ℚ) ≤ (roundHalfEven a : ℚ) by linarith

end Scraper

namespace Scraper

/-- A successful fallible map produces one output per input. -/
theorem listMapOpt_length {α β : Type} {f : α → Option β} :
    ∀ {l : List α} {res : List β}, listMapOpt f l = some res → res.length = l.length := by
  intro l
  induction l with
  | nil =>
    intro res h
    simp only [listMapOpt, Option.some.injEq] at h
    simp [← h]
  | cons a as ih =>
    intro res h
    simp only [listMapOpt] at h
    cases hfa : f a with
    | none => rw [hfa] at h; exact absurd h (by simp)
    | some b =>
      rw [hfa] at h
      cases hrest : listMapOpt f as with
      | none => rw [hrest] at h; exact absurd h (by simp)
      | some bs =>
        rw [hrest] at h
        simp only [Option.some.injEq] at h
        simp [← h, ih hrest]

/-- A successful fallible map sends the j-th input to the j-th output. -/
theorem listMapOpt_get {α β : Type} {f : α → Option β} :
    ∀ {l : List α} {res : List β}, listMapOpt f l = some res →
      ∀ j (hj : j < l.length) (hj' : j < res.length),
        f (l.get ⟨j, hj⟩) = some (res.get ⟨j, hj'⟩) := by
  intro l
  induction l with
  | nil => intro res h j hj hj'; exact absurd hj (by simp)
  | cons a as ih =>
    intro res h j hj hj'
    simp only [listMapOpt] at h
    cases hfa : f a with
    | none => rw [hfa] at h; exact absurd h (by simp)
    | some b =>
      rw [hfa] at h
      cases hrest : listMapOpt f as with
      | none => rw [hrest] at h; exact absurd h (by simp)
      | some bs =>
        rw [hrest] at h
        simp only [Option.some.injEq] at h
        subst h
        cases j with
        | zero => simpa using hfa
        | succ i =>
          exact ih hrest i (Nat.lt_of_succ_lt_succ hj) (Nat.lt_of_succ_lt_succ hj')

/-- Every output of a successful fallible map comes from some input. -/
theorem listMapOpt_mem {α β : Type} {f : α → Option β} :
    ∀ {l : List α} {res : List β}, listMapOpt f l = some res →
      ∀ b ∈ res, ∃ a ∈ l, f a = some b := by
  intro l
  induction l with
  | nil =>
    intro res h b hb
    simp only [listMapOpt, Option.some.injEq] at h
    rw [← h] at hb
    exact absurd hb (by simp)
  | cons a as ih =>
    intro res h b hb
    simp only [listMapOpt] at h
    cases hfa : f a with
    | none => rw [hfa] at h; exact absurd h (by simp)
    | some b0 =>
      rw [hfa] at h
      cases hrest : listMapOpt f as with
      | none => rw [hrest] at h; exact absurd h (by simp)
      | some bs =>
        rw [hrest] at h
        simp only [Option.some.injEq] at h
        subst h
        rcases List.mem_cons.mp hb with hb0 | hbs
        · exact ⟨a, List.mem_cons_self a as, by rw [hfa, hb0]⟩
        · rcases ih hrest b hbs with ⟨a', ha', hfa'⟩
          exact ⟨a', List.mem_cons_of_mem a ha', hfa'⟩

/-- Shape of a row built from a quartile-grammar match: the four amounts are
the parsed captures and the date is the month-normalised date text. -/
theorem mkValueRow_eq {m : ValueRowMatch} {r : MarketRow} (h : mkValueRow m = some r) :
    ∃ lo q1v q3v hi, parseDecimal m.low = some lo ∧ parseDecimal m.q1 = some q1v ∧
      parseDecimal m.q3 = some q3v ∧ parseDecimal m.high = some hi ∧
      r = ⟨monthDateStr (parseNat m.year) (parseNat m.month), lo, q1v, q3v, hi, m.tooltip⟩ := by
  unfold mkValueRow at h
  cases h1 : parseDecimal m.low with
  | none => rw [h1] at h; exact absurd h (by simp)
  | some lo =>
    rw [h1] at h
    cases h2 : parseDecimal m.q1 with
    | none => rw [h2] at h; exact absurd h (by simp)
    | some q1v =>
      rw [h2] at h
      cases h3 : parseDecimal m.q3 with
      | none => rw [h3] at h; exact absurd h (by simp)
      | some q3v =>
        rw [h3] at h
        cases h4 : parseDecimal m.high with
        | none => rw [h4] at h; exact absurd h (by simp)
        | some hi =>
          rw [h4] at h
          simp only [Option.some_bind, Option.map_some', Option.some.injEq] at h
          exact ⟨lo, q1v, q3v, hi, rfl, rfl, rfl, rfl, h.symm⟩

/-- Shape of a row built from a single-price-grammar match: the four amounts
are derived from the parsed price and the date keeps the day. -/
theorem mkSingleRow_eq {m : SingleRowMatch} {r : MarketRow} (h : mkSingleRow m = some r) :
    ∃ price, parseDecimal m.price = some price ∧
      r = ⟨dayDateStr (parseNat m.year) (parseNat m.month) (parseNat m.day),
           deriveLow price, deriveQ1 price, deriveQ3 price, deriveHigh price,
           approxTooltip price⟩ := by
  unfold mkSingleRow at h
  cases h1 : parseDecimal m.price with
  | none => rw [h1] at h; exact absurd h (by simp)
  | some price =>
    rw [h1] at h
    simp only [Option.map_some', Option.some.injEq] at h
    exact ⟨price, rfl, h.symm⟩

end Scraper

namespace Scraper

/-- A poll window that never sees the marker times out carrying the markup
of the last attempt of the window. -/
theorem pollGo_timeout (snap : Nat → List Char) :
    ∀ (n i : Nat) (last : List Char), 0 < n →
      (∀ j, i ≤ j → j < i + n → containsMarker (snap j) = false) →
      pollGo snap i n last = PollResult.timeout (snap (i + n - 1)) := by
  intro n
  induction n with
  | zero => intro i last h; exact absurd h (by simp)
  | succ n ih =>
    intro i last _ hnone
    cases n with
    | zero =>
      have h0 : containsMarker (snap i) = false := hnone i (le_refl i) (by omega)
      simp [pollGo, h0]
    | succ n' =>
      have h0 : containsMarker (snap i) = false := hnone i (le_refl i) (by omega)
      have step : pollGo snap i (n' + 1 + 1) last = pollGo snap (i + 1) (n' + 1) (snap i) := by
        simp [pollGo, h0]
      rw [step, ih (i + 1) (snap i) (Nat.succ_pos n') (fun j hj1 hj2 => hnone j (by omega) (by omega))]
      have harg : i + 1 + (n' + 1) - 1 = i + (n' + 1 + 1) - 1 := by omega
      rw [harg]

/-- The poll returns the markup of the first attempt that shows the marker. -/
theorem pollGo_found (snap : Nat → List Char) :
    ∀ (n i : Nat) (last : List Char) (k : Nat), i ≤ k → k < i + n →
      containsMarker (snap k) = true →
      (∀ j, i ≤ j → j < k → containsMarker (snap j) = false) →
      pollGo snap i n last = PollResult.found (snap k) := by
  intro n
  induction n with
  | zero => intro i last k h1 h2 _ _; omega
  | succ n ih =>
    intro i last k hik hkn hk hbefore
    rcases Nat.eq_or_lt_of_le hik with heq | hlt
    · subst heq
      simp [pollGo, hk]
    · have h0 : containsMarker (snap i) = false := hbefore i (le_refl i) hlt
      have step : pollGo snap i (n + 1) last = pollGo snap (i + 1) n (snap i) := by
        simp [pollGo, h0]
      rw [step]
      exact ih (i + 1) (snap i) k hlt (by omega) hk (fun j hj1 hj2 => hbefore j (by omega) hj2)

/-- The poll consults only the attempts inside its window. -/
theorem pollGo_congr (snap snap' : Nat → List Char) :
    ∀ (n i : Nat) (last : List Char),
      (∀ j, i ≤ j → j < i + n → snap j = snap' j) →
      pollGo snap i n last = pollGo snap' i n last := by
  intro n
  induction n with
  | zero => intro i last _; rfl
  | succ n ih =>
    intro i last hagree
    have h0 : snap i = snap' i := hagree i (le_refl i) (by omega)
    by_cases hm : containsMarker (snap i) = true
    · have hm2 : containsMarker (snap' i) = true := h0 ▸ hm
      simp [pollGo, hm, hm2, h0]
    · have hm' : containsMarker (snap i) = false := by
        cases hcm : containsMarker (snap i) with
        | true => exact absurd hcm hm
        | false => rfl
      have hm'2 : containsMarker (snap' i) = false := h0 ▸ hm'
      have step : pollGo snap i (n + 1) last = pollGo snap (i + 1) n (snap i) := by
        simp [pollGo, hm']
      have step' : pollGo snap' i (n + 1) last = pollGo snap' (i + 1) n (snap' i) := by
        simp [pollGo, hm'2]
      rw [step, step', h0]
      exact ih (i + 1) (snap' i) (fun j hj1 hj2 => hagree j (by omega) (by omega))

/-- The failure entries appended by a batch prefix extend the accumulated
log with exactly the ids whose attempt failed. -/
theorem batchRun_failLog_go (att : List Char → Except Unit (List MarketRecord)) :
    ∀ (ids : List (List Char)) (st : BatchState),
      (List.foldl (batchStep att) st ids).failLog
        = st.failLog ++ ids.filter (attemptFailed att) := by
  intro ids
  induction ids with
  | nil => intro st; simp
  | cons mid rest ih =>
    intro st
    simp only [List.foldl_cons, List.filter_cons]
    rw [ih]
    cases h : att mid with
    | error e =>
      have hf : attemptFailed att mid = true := by simp [attemptFailed, h]
      simp [batchStep, h, hf]
    | ok rows =>
      cases hr : rows.isEmpty with
      | true =>
        have hf : attemptFailed att mid = true := by simp [attemptFailed, h, hr]
        simp [batchStep, h, hr, hf]
      | false =>
        have hf : attemptFailed att mid = false := by simp [attemptFailed, h, hr]
        simp [batchStep, h, hr, hf]

/-- The rows collected by a batch prefix extend the accumulated rows with
the concatenation of all successfully scraped row lists. -/
theorem batchRun_allRows_go (att : List Char → Except Unit (List MarketRecord)) :
    ∀ (ids : List (List Char)) (st : BatchState),
      (List.foldl (batchStep att) st ids).allRows
        = st.allRows ++ (ids.map fun mid =>
            match att mid with
            | Except.ok rows => rows
            | Except.error _ => []).flatten := by
  intro ids
  induction ids with
  | nil => intro st; simp
  | cons mid rest ih =>
    intro st
    simp only [List.foldl_cons, List.map_cons, List.flatten_cons]
    rw [ih]
    cases h : att mid with
    | error e => simp [batchStep, h]
    | ok rows =>
      cases hr : rows.isEmpty with
      | true =>
        have : rows = [] := by
          cases rows with
          | nil => rfl
          | cons a as => simp at hr
        simp [batchStep, h, hr, this]
      | false => simp [batchStep, h, hr]

/-- The ids retained by a retry prefix extend the accumulated retained list
with exactly the ids whose attempt failed. -/
theorem retryRun_stillFailed_go (att : List Char → Except Unit (List MarketRecord))
    (existing : List MarketRecord) :
    ∀ (ids : List (List Char)) (st : RetryState),
      (List.foldl (retryStep att existing) st ids).stillFailed
        = st.stillFailed ++ ids.filter (attemptFailed att) := by
  intro ids
  induction ids with
  | nil => intro st; simp
  | cons mid rest ih =>
    intro st
    simp only [List.foldl_cons, List.filter_cons]
    rw [ih]
    cases h : att mid with
    | error e =>
      have hf : attemptFailed att mid = true := by simp [attemptFailed, h]
      simp [retryStep, h, hf]
    | ok rows =>
      cases hr : rows.isEmpty with
      | true =>
        have hf : attemptFailed att mid = true := by simp [attemptFailed, h, hr]
        simp [retryStep, h, hr, hf]
      | false =>
        have hf : attemptFailed att mid = false := by simp [attemptFailed, h, hr]
        have hstep : (retryStep att existing st mid).stillFailed = st.stillFailed := by
          simp only [retryStep, h, hr, Bool.false_eq_true, if_false]
          split
          · rfl
          · rfl
        simp [hstep, hf]

/-- The single-test workflow never writes a failure entry. -/
theorem singleTestRun_failLog (att : List Char → Except Unit (List MarketRecord))
    (mid : List Char) : (singleTestRun att mid).failLog = [] := by
  cases h : att mid <;> simp [singleTestRun, h]

/-- Appending the same rows a second time finds nothing new. -/
theorem appendDedup_idem (csv rows : List MarketRecord) :
    appendDedup (appendDedup csv rows) rows = appendDedup csv rows := by
  unfold appendDedup
  have hnil : (rows.filter fun r =>
      !((csv ++ rows.filter fun r => !(csv.contains r)).contains r)) = [] := by
    rw [List.filter_eq_nil_iff]
    intro a ha
    simp only [Bool.not_eq_true', Bool.not_eq_false]
    by_cases hmem : a ∈ csv
    · have : a ∈ csv ++ rows.filter fun r => !(csv.contains r) := List.mem_append_left _ hmem
      simpa [List.contains, List.elem_iff] using this
    · have hkeep : a ∈ rows.filter fun r => !(csv.contains r) := by
        rw [List.mem_filter]
        refine ⟨ha, ?_⟩
        simp [List.contains, List.elem_iff, hmem]
      have : a ∈ csv ++ rows.filter fun r => !(csv.contains r) := List.mem_append_right _ hkeep
      simpa [List.contains, List.elem_iff] using this
  rw [hnil]
  simp

/-- A deduplicating append adds a fresh record of a duplicate-free batch
exactly once. -/
theorem appendDedup_count_one (csv rows : List MarketRecord) (hnd : rows.Nodup)
    (r : MarketRecord) (hmem : r ∈ rows) (hnew : r ∉ csv) :
    (appendDedup csv rows).count r = 1 := by
  unfold appendDedup
  rw [List.count_append]
  have hc0 : csv.count r = 0 := List.count_eq_zero.mpr hnew
  have hfilter : (rows.filter fun x => !(csv.contains x)).count r
      = rows.count r := List.count_filter (by simp [List.contains, List.elem_iff, hnew])
  rw [hc0, hfilter, List.count_eq_one_of_mem hnd hmem]

/-- A deduplicating append preserves duplicate-freedom of the store. -/
theorem appendDedup_nodup (csv rows : List MarketRecord)
    (h1 : csv.Nodup) (h2 : rows.Nodup) : (appendDedup csv rows).Nodup := by
  unfold appendDedup
  refine List.Nodup.append h1 (List.Nodup.filter _ h2) ?_
  rw [List.disjoint_left]
  intro a hacsv hafilter
  rw [List.mem_filter] at hafilter
  have := hafilter.2
  simp [List.contains, List.elem_iff] at this
  exact this hacsv

end Scraper

namespace Scraper

/-- Over whole-cent prices the derived amounts are ordered with the first
quartile lowest, and strictly ordered from eight cents up. -/
theorem derive_chain (k : Nat) (hk : 1 ≤ k) :
    (deriveQ1 ((k : ℚ) / 100) ≤ deriveLow ((k : ℚ) / 100) ∧
     deriveLow ((k : ℚ) / 100) ≤ (k : ℚ) / 100 ∧
     (k : ℚ) / 100 ≤ deriveQ3 ((k : ℚ) / 100) ∧
     deriveQ3 ((k : ℚ) / 100) ≤ deriveHigh ((k : ℚ) / 100)) ∧
    (8 ≤ k →
     deriveQ1 ((k : ℚ) / 100) < deriveLow ((k : ℚ) / 100) ∧
     deriveLow ((k : ℚ) / 100) < (k : ℚ) / 100 ∧
     (k : ℚ) / 100 < deriveQ3 ((k : ℚ) / 100) ∧
     deriveQ3 ((k : ℚ) / 100) < deriveHigh ((k : ℚ) / 100)) := by
  rcases Nat.lt_or_ge k 11 with hsmall | hbig
  · interval_cases k <;>
      norm_num [deriveLow, deriveQ1, deriveQ3, deriveHigh, round2, roundHalfEven, ratFloor]
  · have hkq : (11 : ℚ) ≤ (k : ℚ) := by exact_mod_cast hbig
    have e1 : (100 : ℚ) * ((0.8 : ℚ) * ((k : ℚ) / 100)) = 4 * (k : ℚ) / 5 := by
      rw [show (0.8 : ℚ) = 4 / 5 by norm_num]
      ring
    have e2 : (100 : ℚ) * ((0.9 : ℚ) * ((k : ℚ) / 100)) = 9 * (k : ℚ) / 10 := by
      rw [show (0.9 : ℚ) = 9 / 10 by norm_num]
      ring
    have e3 : (100 : ℚ) * ((1.1 : ℚ) * ((k : ℚ) / 100)) = 11 * (k : ℚ) / 10 := by
      rw [show (1.1 : ℚ) = 11 / 10 by norm_num]
      ring
    have e4 : (100 : ℚ) * ((1.2 : ℚ) * ((k : ℚ) / 100)) = 12 * (k : ℚ) / 10 := by
      rw [show (1.2 : ℚ) = 12 / 10 by norm_num]
      ring
    have i1 : roundHalfEven (4 * (k : ℚ) / 5) < roundHalfEven (9 * (k : ℚ) / 10) :=
      roundHalfEven_lt_roundHalfEven (by linarith)
    have i2 : roundHalfEven (9 * (k : ℚ) / 10) < (k : ℤ) :=
      roundHalfEven_lt_int (by push_cast; linarith)
    have i3 : (k : ℤ) < roundHalfEven (11 * (k : ℚ) / 10) :=
      int_lt_roundHalfEven (by push_cast; linarith)
    have i4 : roundHalfEven (11 * (k : ℚ) / 10) < roundHalfEven (12 * (k : ℚ) / 10) :=
      roundHalfEven_lt_roundHalfEven (by linarith)
    have c1 : ((roundHalfEven (4 * (k : ℚ) / 5) : ℤ) : ℚ) < ((roundHalfEven (9 * (k : ℚ) / 10) : ℤ) : ℚ) := by
      exact_mod_cast i1
    have c2 : ((roundHalfEven (9 * (k : ℚ) / 10) : ℤ) : ℚ) < (k : ℚ) := by
      exact_mod_cast i2
    have c3 : (k : ℚ) < ((roundHalfEven (11 * (k : ℚ) / 10) : ℤ) : ℚ) := by
      exact_mod_cast i3
    have c4 : ((roundHalfEven (11 * (k : ℚ) / 10) : ℤ) : ℚ) < ((roundHalfEven (12 * (k : ℚ) / 10) : ℤ) : ℚ) := by
      exact_mod_cast i4
    simp only [deriveQ1, deriveLow, deriveQ3, deriveHigh, round2, e1, e2, e3, e4]
    refine ⟨⟨by linarith, by linarith, by linarith, by linarith⟩,
      fun _ => ⟨by linarith, by linarith, by linarith, by linarith⟩⟩

/-- A bounded value prints to at most one digit. -/
theorem natDigitsAux_length_le_one :
    ∀ (fuel m : Nat), m < 10 → (natDigitsAux fuel m).length ≤ 1 := by
  intro fuel
  cases fuel with
  | zero => intro m _; simp [natDigitsAux]
  | succ f =>
    intro m hm
    cases m with
    | zero => simp [natDigitsAux]
    | succ m' =>
      simp only [natDigitsAux, List.length_append, List.length_singleton]
      have hdiv : (m' + 1) / 10 = 0 := Nat.div_eq_of_lt hm
      rw [hdiv]
      cases f <;> simp [natDigitsAux]

/-- A value below one hundred prints to at most two digits. -/
theorem natDigitsAux_length_le_two :
    ∀ (fuel m : Nat), m < 100 → (natDigitsAux fuel m).length ≤ 2 := by
  intro fuel
  cases fuel with
  | zero => intro m _; simp [natDigitsAux]
  | succ f =>
    intro m hm
    cases m with
    | zero => simp [natDigitsAux]
    | succ m' =>
      simp only [natDigitsAux, List.length_append, List.length_singleton]
      have hdiv : (m' + 1) / 10 < 10 := by omega
      have := natDigitsAux_length_le_one f ((m' + 1) / 10) hdiv
      omega

/-- The two-digit field of a value below one hundred has length exactly two. -/
theorem fmt02_length (m : Nat) (h : m < 100) : (fmt02 m).length = 2 := by
  rw [fmt02, padZeros, List.length_append, List.length_replicate]
  have hle : (natToChars m).length ≤ 2 := by
    rw [natToChars]
    split
    · simp
    · exact natDigitsAux_length_le_two (m + 1) m h
  have hpos : 1 ≤ (natToChars m).length := by
    rw [natToChars]
    split
    · simp
    · cases m with
      | zero => simp_all
      | succ m' =>
        simp only [natDigitsAux, List.length_append, List.length_singleton]
        omega
  omega

/-- The fixed-point rendering always ends in a dot followed by exactly two
digits of fractional part. -/
theorem fmtFixed2_shape (p : ℚ) :
    ∃ pre post, fmtFixed2 p = pre ++ '.' :: post ∧ post.length = 2 := by
  rw [fmtFixed2]
  set n := roundHalfEven (100 * p) with hn
  have hlen : (fmt02 (n.natAbs % 100)).length = 2 :=
    fmt02_length _ (Nat.mod_lt _ (by norm_num))
  by_cases hneg : n < 0
  · refine ⟨'-' :: natToChars (n.natAbs / 100), fmt02 (n.natAbs % 100), ?_, hlen⟩
    simp [hneg]
  · refine ⟨natToChars (n.natAbs / 100), fmt02 (n.natAbs % 100), ?_, hlen⟩
    simp [hneg]

end Scraper

namespace Scraper

/-- Evaluation rule for a numeral with an integer and a fractional part. -/
theorem parseDecimal_two (s ip fp : List Char) (hs : splitOnDot s = [ip, fp])
    (hne : (ip.isEmpty && fp.isEmpty) = false) :
    parseDecimal s = some ((parseNat ip : ℚ) + (parseNat fp : ℚ) / (10 : ℚ) ^ fp.length) := by
  simp only [parseDecimal, hs, hne, Bool.false_eq_true, if_false]

/-- The numeral 18.00 reads as the rational 18. -/
theorem pd18 : parseDecimal ((r"18.00").toList) = some 18 := by
  rw [parseDecimal_two _ ['1', '8'] ['0', '0'] (by decide) (by decide)]
  rw [show parseNat ['1', '8'] = 18 from by decide, show parseNat ['0', '0'] = 0 from by decide]
  simp only [Option.some.injEq]
  norm_num

/-- The numeral 79.35 reads as the rational 79.35. -/
theorem pd7935 : parseDecimal ((r"79.35").toList) = some (79.35 : ℚ) := by
  rw [parseDecimal_two _ ['7', '9'] ['3', '5'] (by decide) (by decide)]
  rw [show parseNat ['7', '9'] = 79 from by decide, show parseNat ['3', '5'] = 35 from by decide]
  simp only [Option.some.injEq]
  norm_num

/-- The numeral 81.00 reads as the rational 81. -/
theorem pd81 : parseDecimal ((r"81.00").toList) = some 81 := by
  rw [parseDecimal_two _ ['8', '1'] ['0', '0'] (by decide) (by decide)]
  rw [show parseNat ['8', '1'] = 81 from by decide, show parseNat ['0', '0'] = 0 from by decide]
  simp only [Option.some.injEq]
  norm_num

/-- The numeral 85.96 reads as the rational 85.96. -/
theorem pd8596 : parseDecimal ((r"85.96").toList) = some (85.96 : ℚ) := by
  rw [parseDecimal_two _ ['8', '5'] ['9', '6'] (by decide) (by decide)]
  rw [show parseNat ['8', '5'] = 85 from by decide, show parseNat ['9', '6'] = 96 from by decide]
  simp only [Option.some.injEq]
  norm_num

/-- The numeral 89.27 reads as the rational 89.27. -/
theorem pd8927 : parseDecimal ((r"89.27").toList) = some (89.27 : ℚ) := by
  rw [parseDecimal_two _ ['8', '9'] ['2', '7'] (by decide) (by decide)]
  rw [show parseNat ['8', '9'] = 89 from by decide, show parseNat ['2', '7'] = 27 from by decide]
  simp only [Option.some.injEq]
  norm_num

/-- The numeral 1.00 reads as the rational 1. -/
theorem pd100 : parseDecimal ((r"1.00").toList) = some 1 := by
  rw [parseDecimal_two _ ['1'] ['0', '0'] (by decide) (by decide)]
  rw [show parseNat ['1'] = 1 from by decide, show parseNat ['0', '0'] = 0 from by decide]
  simp only [Option.some.injEq]
  norm_num

/-- The numeral 2.00 reads as the rational 2. -/
theorem pd200 : parseDecimal ((r"2.00").toList) = some 2 := by
  rw [parseDecimal_two _ ['2'] ['0', '0'] (by decide) (by decide)]
  rw [show parseNat ['2'] = 2 from by decide, show parseNat ['0', '0'] = 0 from by decide]
  simp only [Option.some.injEq]
  norm_num

/-- The numeral 3.00 reads as the rational 3. -/
theorem pd300 : parseDecimal ((r"3.00").toList) = some 3 := by
  rw [parseDecimal_two _ ['3'] ['0', '0'] (by decide) (by decide)]
  rw [show parseNat ['3'] = 3 from by decide, show parseNat ['0', '0'] = 0 from by decide]
  simp only [Option.some.injEq]
  norm_num

/-- The numeral 4.00 reads as the rational 4. -/
theorem pd400 : parseDecimal ((r"4.00").toList) = some 4 := by
  rw [parseDecimal_two _ ['4'] ['0', '0'] (by decide) (by decide)]
  rw [show parseNat ['4'] = 4 from by decide, show parseNat ['0', '0'] = 0 from by decide]
  simp only [Option.some.injEq]
  norm_num

/-- The derived low of price 18 is 16.20. -/
theorem deriveLow18 : deriveLow 18 = 162 / 10 := by
  norm_num [deriveLow, round2, roundHalfEven, ratFloor]

/-- The derived first quartile of price 18 is 14.40. -/
theorem deriveQ118 : deriveQ1 18 = 144 / 10 := by
  norm_num [deriveQ1, round2, roundHalfEven, ratFloor]

/-- The derived third quartile of price 18 is 19.80. -/
theorem deriveQ318 : deriveQ3 18 = 198 / 10 := by
  norm_num [deriveQ3, round2, roundHalfEven, ratFloor]

/-- The derived high of price 18 is 21.60. -/
theorem deriveHigh18 : deriveHigh 18 = 216 / 10 := by
  norm_num [deriveHigh, round2, roundHalfEven, ratFloor]

/-- The tooltip of price 18 renders the price with two fractional digits. -/
theorem tooltip18 : approxTooltip 18 = (r"$18.00 (approximated quartiles)").toList := by
  have h : roundHalfEven (100 * 18) = 1800 := by norm_num [roundHalfEven, ratFloor]
  simp only [approxTooltip, fmtFixed2, h]
  decide

/-- The single match of the concrete single-price row text. -/
theorem findSingle18 : findSingleRows singlePriceRowText = [singleMatch18] := by decide

/-- The row built from the concrete single-price match. -/
theorem mkSingle18 : mkSingleRow singleMatch18 = some singleRow18 := by
  simp only [mkSingleRow]
  rw [show singleMatch18.price = (r"18.00").toList from rfl, pd18]
  simp only [Option.map_some', Option.some.injEq]
  rw [show dayDateStr (parseNat singleMatch18.year) (parseNat singleMatch18.month)
        (parseNat singleMatch18.day) = (r"2008-04-28").toList from by decide]
  rw [deriveLow18, deriveQ118, deriveQ318, deriveHigh18, tooltip18]
  rfl

/-- The full single-price parse of the concrete row text. -/
theorem parseSingle18 : parse_single_price_block singlePriceRowText = some [singleRow18] := by
  show listMapOpt mkSingleRow (findSingleRows singlePriceRowText) = some [singleRow18]
  rw [findSingle18]
  simp [listMapOpt, mkSingle18]

/-- The single match of the concrete quartile row text with separators. -/
theorem findValue2022 : findValueRows valueRowTextSpaces = [valueMatch2022] := by decide

/-- The row built from the concrete quartile match. -/
theorem mkValue2022 : mkValueRow valueMatch2022 = some valueRow2022 := by
  simp only [mkValueRow]
  rw [show valueMatch2022.low = (r"79.35").toList from rfl, pd7935]
  simp only [Option.some_bind]
  rw [show valueMatch2022.q1 = (r"81.00").toList from rfl, pd81]
  simp only [Option.some_bind]
  rw [show valueMatch2022.q3 = (r"85.96").toList from rfl, pd8596]
  simp only [Option.some_bind]
  rw [show valueMatch2022.high = (r"89.27").toList from rfl, pd8927]
  simp only [Option.map_some', Option.some.injEq]
  rw [show monthDateStr (parseNat valueMatch2022.year) (parseNat valueMatch2022.month)
        = (r"2022-01-01").toList from by decide]
  rw [show valueMatch2022.tooltip = (r"January 2022   $81.00 - $85.96").toList from rfl]
  rfl

/-- The full quartile parse of the concrete row text with separators. -/
theorem extractValue2022 : extract_value_sales_rows valueRowTextSpaces = some [valueRow2022] := by
  show listMapOpt mkValueRow (findValueRows valueRowTextSpaces) = some [valueRow2022]
  rw [findValue2022]
  simp [listMapOpt, mkValue2022]

/-- The quartile grammar does not match the row text written without spaces
after the commas inside new Date, so the parse yields no rows. -/
theorem extractValueNoSpaces : extract_value_sales_rows valueRowTextNoSpaces = some [] := by
  show listMapOpt mkValueRow (findValueRows valueRowTextNoSpaces) = some []
  rw [show findValueRows valueRowTextNoSpaces = [] from by decide]
  rfl

/-- The single match of the concrete month-12 row text. -/
theorem findValue12 : findValueRows valueRowTextMonth12 = [valueMatch12] := by decide

/-- The row built from the month-12 match carries the date text 2022-13-01. -/
theorem mkValue12 : mkValueRow valueMatch12 = some valueRowMonth13 := by
  simp only [mkValueRow]
  rw [show valueMatch12.low = (r"1.00").toList from rfl, pd100]
  simp only [Option.some_bind]
  rw [show valueMatch12.q1 = (r"2.00").toList from rfl, pd200]
  simp only [Option.some_bind]
  rw [show valueMatch12.q3 = (r"3.00").toList from rfl, pd300]
  simp only [Option.some_bind]
  rw [show valueMatch12.high = (r"4.00").toList from rfl, pd400]
  simp only [Option.map_some', Option.some.injEq]
  rw [show monthDateStr (parseNat valueMatch12.year) (parseNat valueMatch12.month)
        = (r"2022-13-01").toList from by decide]
  rw [show valueMatch12.tooltip = ['x'] from rfl]
  rfl

/-- The full quartile parse of the month-12 row text. -/
theorem extractValue12 : extract_value_sales_rows valueRowTextMonth12 = some [valueRowMonth13] := by
  show listMapOpt mkValueRow (findValueRows valueRowTextMonth12) = some [valueRowMonth13]
  rw [findValue12]
  simp [listMapOpt, mkValue12]

/-- The malformed numeral of the bad single-price row raises inside the
parse, modelled as none. -/
theorem parseSingleBad : parse_single_price_block badSingleRowText = none := by decide

/-- The one-block markup around the bad row propagates the raised error. -/
theorem parseHtmlBad : parseValueSalesHtml swId badHtml = none := by decide

/-- One block whose text matches no grammar yields zero rows, no error. -/
theorem parseHtmlNoRow : parseValueSalesHtml swId noRowHtml = some [] := by decide

end Scraper

namespace Scraper

/-- C1 counterexample: the claim, as stated, fails on an id whose retry
extracts one record that is already in the canonical CSV: the retry yields
zero post-dedup new records, yet the id is removed from the retained list. -/
theorem c1_counterexample :
    ¬ (∀ mid ∈ [swId], mid ∉ (retryRun attOkA [recA] [swId]).stillFailed ↔
        ∃ rows, attOkA mid = Except.ok rows ∧
          rows.filter (fun r => !(([recA] : List MarketRecord).contains r)) ≠ []) := by
  intro h
  have h2 := (h swId (List.mem_singleton_self _)).mp (by decide)
  obtain ⟨rows, hrows, hne⟩ := h2
  simp only [attOkA, Except.ok.injEq] at hrows
  subst hrows
  exact hne (by decide)

/-- C1 (amended): the retry-failures workflow removes from the retained
failure list exactly those ids whose attempt succeeds with at least one
extracted record, even when every extracted record is already in the
canonical CSV and zero new rows are appended; it keeps exactly the ids whose
attempt raises or extracts zero records, in queue order. -/
theorem c1_retry_retained (att : List Char → Except Unit (List MarketRecord))
    (existing : List MarketRecord) (ids : List (List Char)) :
    (retryRun att existing ids).stillFailed = ids.filter (attemptFailed att) := by
  simpa using retryRun_stillFailed_go att existing ids ⟨[], [], 0⟩

/-- C2 counterexample: on the concrete single-price row with price 18.00 the
parser derives Low 16.20 and Q1 14.40, so the claimed strict chain
Low below Q1 fails at its first link. -/
theorem c2_counterexample :
    parse_single_price_block singlePriceRowText = some [singleRow18] ∧
    ¬ (singleRow18.low < singleRow18.q1) := by
  refine ⟨parseSingle18, ?_⟩
  rw [show singleRow18.low = 162 / 10 from rfl, show singleRow18.q1 = 144 / 10 from rfl]
  norm_num

/-- C2 (amended): the multiplier 0.9 exceeds 0.8, so the derived fields of a
single-price row are ordered Q1, Low, price, Q3, High. With cent rounding
the order is non-strict for every whole-cent price and strict for every
whole-cent price of at least eight cents. -/
theorem c2_amended (m : SingleRowMatch) (r : MarketRow) (k : Nat)
    (hm : mkSingleRow m = some r) (hp : parseDecimal m.price = some ((k : ℚ) / 100))
    (hk : 1 ≤ k) :
    (r.q1 ≤ r.low ∧ r.low ≤ (k : ℚ) / 100 ∧ (k : ℚ) / 100 ≤ r.q3 ∧ r.q3 ≤ r.high) ∧
    (8 ≤ k →
      r.q1 < r.low ∧ r.low < (k : ℚ) / 100 ∧ (k : ℚ) / 100 < r.q3 ∧ r.q3 < r.high) := by
  obtain ⟨price, hpd, hre⟩ := mkSingleRow_eq hm
  rw [hp] at hpd
  injection hpd with hpe
  subst hpe
  subst hre
  exact derive_chain k hk

/-- C2 witness: the amended chain at the concrete 18.00 row. -/
theorem c2_amended_witness :
    (singleRow18.q1 ≤ singleRow18.low ∧ singleRow18.low ≤ ((1800 : Nat) : ℚ) / 100 ∧
     ((1800 : Nat) : ℚ) / 100 ≤ singleRow18.q3 ∧ singleRow18.q3 ≤ singleRow18.high) ∧
    (8 ≤ 1800 →
      singleRow18.q1 < singleRow18.low ∧ singleRow18.low < ((1800 : Nat) : ℚ) / 100 ∧
      ((1800 : Nat) : ℚ) / 100 < singleRow18.q3 ∧ singleRow18.q3 < singleRow18.high) :=
  c2_amended singleMatch18 singleRow18 1800 mkSingle18
    (by rw [show singleMatch18.price = (r"18.00").toList from rfl, pd18]
        simp only [Option.some.injEq]
        norm_num)
    (by decide)

/-- C3 counterexample: the batch workflow opens the canonical file in
truncating write mode with no dedup; with the store already holding recA and
a batch whose collected record set is again recA (twice, from a repeated
id), the second write is not zero new rows: the file ends with two copies. -/
theorem c3_counterexample :
    batchCsvWrite [recA] (batchRun attOkA [swId, swId]).allRows ≠ [recA] ∧
    List.count recA (batchCsvWrite [recA] (batchRun attOkA [swId, swId]).allRows) = 2 := by
  decide

/-- C3 (amended): the deduplicating append of the retry workflow is
idempotent: appending the same rows to the result of appending them writes
nothing, and a record of a duplicate-free batch that is not yet in the store
is written exactly once. The batch and single-test workflows instead
truncate and rewrite the file without dedup. -/
theorem c3_amended (csv rows : List MarketRecord) :
    appendDedup (appendDedup csv rows) rows = appendDedup csv rows ∧
    (rows.Nodup → ∀ r, r ∈ rows → r ∉ csv → (appendDedup csv rows).count r = 1) :=
  ⟨appendDedup_idem csv rows, fun hnd r hmem hnew => appendDedup_count_one csv rows hnd r hmem hnew⟩

/-- C3 witness: idempotence and single write at a concrete append. -/
theorem c3_witness :
    appendDedup (appendDedup [] [recA]) [recA] = appendDedup [] [recA] ∧
    (appendDedup [] [recA]).count recA = 1 :=
  ⟨(c3_amended [] [recA]).1, (c3_amended [] [recA]).2 (by decide) recA (by decide) (by decide)⟩

/-- C4 counterexample: a batch run whose id list repeats an id persists two
records with the identical tuple, so the uniqueness invariant is not
preserved by the batch write. -/
theorem c4_counterexample :
    ¬ (batchCsvWrite [] (batchRun attOkA [swId, swId]).allRows).Nodup ∧
    batchCsvWrite [] (batchRun attOkA [swId, swId]).allRows = [recA, recA] := by
  decide

/-- C4 (amended): only the deduplicating append of the retry workflow
preserves the uniqueness invariant: a duplicate-free store stays
duplicate-free under a duplicate-free appended batch. -/
theorem c4_amended (csv rows : List MarketRecord) (h1 : csv.Nodup) (h2 : rows.Nodup) :
    (appendDedup csv rows).Nodup :=
  appendDedup_nodup csv rows h1 h2

/-- C4 witness: uniqueness preserved at a concrete append. -/
theorem c4_witness : (appendDedup [recA] [recA]).Nodup :=
  c4_amended [recA] [recA] (by decide) (by decide)

/-- C5 counterexample: in the single-test workflow a failing attempt is not
recorded in the failure queue: the attempt raises, yet the queue gets no
entry for the hardcoded test id. -/
theorem c5_counterexample :
    attemptFailed attErr testMinifigId = true ∧
    testMinifigId ∉ (singleTestRun attErr testMinifigId).failLog := by
  decide

/-- C5 (amended): in the batch and retry-failures workflows the ids written
to the failure queue are exactly those whose attempt raised or extracted
zero records, and both outcomes are values of the workflow rather than
propagated errors; the single-test workflow records nothing in the failure
queue on any outcome. -/
theorem c5_amended :
    (∀ att ids, (batchRun att ids).failLog = ids.filter (attemptFailed att)) ∧
    (∀ att existing ids,
      (retryRun att existing ids).stillFailed = ids.filter (attemptFailed att)) ∧
    (∀ att mid, (singleTestRun att mid).failLog = []) := by
  refine ⟨fun att ids => ?_, fun att ex ids => ?_, singleTestRun_failLog⟩
  · simpa using batchRun_failLog_go att ids ⟨[], []⟩
  · simpa using retryRun_stillFailed_go att ex ids ⟨[], [], 0⟩

/-- C6 counterexample: a present block whose row matches the single-price
grammar but carries the numeral 1..5 raises a conversion error that escapes
the parse (modelled as none), so the selection policy does not hold
exception-free on all malformed-but-present text. -/
theorem c6_counterexample :
    parseValueSalesHtml swId badHtml = none ∧
    ¬ (∀ mid html, parseValueSalesHtml mid html ≠ none) :=
  ⟨parseHtmlBad, fun h => h swId badHtml parseHtmlBad⟩

/-- C6 (amended): grammar selection follows the block count: zero blocks
give zero records, one block is parsed with the single-price grammar, two or
more blocks parse block index one with the quartile grammar; a present block
whose text matches no grammar row yields zero records without error, but a
grammar-matching row with an invalid numeral raises out of the parse layer. -/
theorem c6_amended :
    (∀ mid html, findBlocks html = [] → parseValueSalesHtml mid html = some []) ∧
    (∀ mid html b0, findBlocks html = [b0] →
      parseValueSalesHtml mid html
        = (parse_single_price_block b0).map (List.map (recordOfRow mid))) ∧
    (∀ mid html b0 b1 rest, findBlocks html = b0 :: b1 :: rest →
      parseValueSalesHtml mid html
        = (extract_value_sales_rows b1).map (List.map (recordOfRow mid))) ∧
    (∀ mid html b0, findBlocks html = [b0] → findSingleRows b0 = [] →
      parseValueSalesHtml mid html = some []) := by
  refine ⟨?_, ?_, ?_, ?_⟩
  · intro mid html h
    simp [parseValueSalesHtml, h]
  · intro mid html b0 h
    simp [parseValueSalesHtml, h]
  · intro mid html b0 b1 rest h
    simp [parseValueSalesHtml, h]
  · intro mid html b0 h hs
    simp [parseValueSalesHtml, h, parse_single_price_block, hs, listMapOpt]

/-- C6 witness: the selection policy at a one-block markup with no matching
rows. -/
theorem c6_witness : parseValueSalesHtml swId noRowHtml = some [] :=
  (c6_amended).2.2.2 swId noRowHtml ((r"xyz").toList) (by decide) (by decide)

/-- C7 counterexample: the row literal written as the spec writes it, with
no spaces after the commas inside new Date, does not match the quartile
grammar, so it yields no record instead of the claimed one. -/
theorem c7_counterexample :
    extract_value_sales_rows valueRowTextNoSpaces = some [] ∧
    ¬ (extract_value_sales_rows valueRowTextNoSpaces = some [valueRow2022]) := by
  refine ⟨extractValueNoSpaces, ?_⟩
  rw [extractValueNoSpaces]
  simp

/-- C7 (amended): on every input whose matched numerals are valid the
quartile parser emits exactly one record per matching row literal, in match
order, each dated the first of the stated month; and the concrete row
written with the comma-space separators the grammar requires yields exactly
the claimed record. -/
theorem c7_amended :
    (∀ s rows, extract_value_sales_rows s = some rows →
      rows.length = (findValueRows s).length ∧
      (∀ j (hj : j < (findValueRows s).length) (hj' : j < rows.length),
        mkValueRow ((findValueRows s).get ⟨j, hj⟩) = some (rows.get ⟨j, hj'⟩)) ∧
      (∀ r ∈ rows, ∃ y mo, r.date = monthDateStr y mo)) ∧
    extract_value_sales_rows valueRowTextSpaces = some [valueRow2022] := by
  constructor
  · intro s rows h
    have h' : listMapOpt mkValueRow (findValueRows s) = some rows := h
    refine ⟨listMapOpt_length h', fun j hj hj' => listMapOpt_get h' j hj hj', ?_⟩
    intro r hr
    obtain ⟨m, _, hmk⟩ := listMapOpt_mem h' r hr
    obtain ⟨lo, q1v, q3v, hi, _, _, _, _, hre⟩ := mkValueRow_eq hmk
    exact ⟨parseNat m.year, parseNat m.month, by rw [hre]⟩
  · exact extractValue2022

/-- C7 witness: the general part applied to the concrete row text. -/
theorem c7_witness :
    [valueRow2022].length = (findValueRows valueRowTextSpaces).length ∧
    (∀ r ∈ [valueRow2022], ∃ y mo, r.date = monthDateStr y mo) :=
  ⟨((c7_amended).1 valueRowTextSpaces [valueRow2022] extractValue2022).1,
   ((c7_amended).1 valueRowTextSpaces [valueRow2022] extractValue2022).2.2⟩

/-- C8: the readiness poll runs at most the 30 budgeted attempts and always
terminates; it returns the markup of the first attempt that shows the
marker; when no attempt in the budget shows the marker it times out carrying
the last observed markup, the attempt yields no usable rows, and the poll
never consults an attempt outside the budget. -/
theorem c8_poll :
    (∀ snap k, k < pollBudget → containsMarker (snap k) = true →
      (∀ j, j < k → containsMarker (snap j) = false) →
      pollLoop snap = PollResult.found (snap k)) ∧
    (∀ snap, (∀ i, i < pollBudget → containsMarker (snap i) = false) →
      pollLoop snap = PollResult.timeout (snap 29) ∧
      (∀ mid, scrape_and_parse_value_sales mid snap = some [])) ∧
    (∀ snap snap', (∀ i, i < pollBudget → snap i = snap' i) →
      pollLoop snap = pollLoop snap') := by
  refine ⟨?_, ?_, ?_⟩
  · intro snap k hk hmark hbefore
    exact pollGo_found snap pollBudget 0 [] k (Nat.zero_le k) (by omega) hmark
      (fun j _ hj2 => hbefore j hj2)
  · intro snap hnone
    have ht : pollLoop snap = PollResult.timeout (snap 29) := by
      have := pollGo_timeout snap pollBudget 0 [] (by decide)
        (fun j _ hj2 => hnone j (by omega))
      simpa [pollBudget] using this
    refine ⟨ht, fun mid => ?_⟩
    simp [scrape_and_parse_value_sales, ht]
  · intro snap snap' hagree
    exact pollGo_congr snap snap' pollBudget 0 [] (fun j _ hj2 => hagree j (by omega))

/-- C8 witness: the poll finds the marker at attempt index two of a concrete
snapshot sequence. -/
theorem c8_witness :
    2 < pollBudget ∧ containsMarker (snapAtTwo 2) = true ∧
    pollLoop snapAtTwo = PollResult.found (snapAtTwo 2) :=
  ⟨by decide, by decide,
   (c8_poll).1 snapAtTwo 2 (by decide) (by decide)
     (fun j hj => by interval_cases j <;> decide)⟩

/-- C9: each derived monetary field of a single-price row is the multiplier
product rounded to two decimal places, not the exact product, and the
tooltip renders the price with a dot followed by exactly two fractional
digits; at price 1.03 the rounded low 0.93 differs from the exact product
0.927. -/
theorem c9_rounding :
    (∀ m price r, parseDecimal m.price = some price → mkSingleRow m = some r →
      r.low = round2 ((0.9 : ℚ) * price) ∧ r.q1 = round2 ((0.8 : ℚ) * price) ∧
      r.q3 = round2 ((1.1 : ℚ) * price) ∧ r.high = round2 ((1.2 : ℚ) * price) ∧
      r.tooltip = '$' :: fmtFixed2 price ++ (r" (approximated quartiles)").toList) ∧
    (∀ price : ℚ, ∃ pre post, fmtFixed2 price = pre ++ '.' :: post ∧ post.length = 2) ∧
    deriveLow (103 / 100) = 93 / 100 ∧ deriveLow (103 / 100) ≠ (0.9 : ℚ) * (103 / 100) := by
  refine ⟨?_, fmtFixed2_shape, ?_, ?_⟩
  · intro m price r hp hm
    obtain ⟨price', hp', hre⟩ := mkSingleRow_eq hm
    rw [hp] at hp'
    injection hp' with hpe
    subst hpe
    subst hre
    exact ⟨rfl, rfl, rfl, rfl, rfl⟩
  · norm_num [deriveLow, round2, roundHalfEven, ratFloor]
  · norm_num [deriveLow, round2, roundHalfEven, ratFloor]

/-- C9 witness: the rounded fields and tagged tooltip at the concrete 18.00
row. -/
theorem c9_witness :
    singleRow18.low = round2 ((0.9 : ℚ) * 18) ∧ singleRow18.q1 = round2 ((0.8 : ℚ) * 18) ∧
    singleRow18.q3 = round2 ((1.1 : ℚ) * 18) ∧ singleRow18.high = round2 ((1.2 : ℚ) * 18) ∧
    singleRow18.tooltip = '$' :: fmtFixed2 18 ++ (r" (approximated quartiles)").toList :=
  (c9_rounding).1 singleMatch18 18 singleRow18
    (by rw [show singleMatch18.price = (r"18.00").toList from rfl]; exact pd18) mkSingle18

/-- C10: both grammars emit the zero-based month capture plus one as the
month component of the date text, with no range validation; a matching row
with month field 12 yields the non-calendar date text 2022-13-01 in a parsed
row rather than a failure. -/
theorem c10_month_offset :
    (∀ m r, mkValueRow m = some r →
      r.date = monthDateStr (parseNat m.year) (parseNat m.month)) ∧
    (∀ m r, mkSingleRow m = some r →
      r.date = dayDateStr (parseNat m.year) (parseNat m.month) (parseNat m.day)) ∧
    (∀ y mo, monthDateStr y mo = fmt04 y ++ '-' :: fmt02 (mo + 1) ++ ('-' :: ['0', '1'])) ∧
    (∀ y mo d, dayDateStr y mo d = fmt04 y ++ '-' :: fmt02 (mo + 1) ++ '-' :: fmt02 d) ∧
    extract_value_sales_rows valueRowTextMonth12 = some [valueRowMonth13] ∧
    valueRowMonth13.date = (r"2022-13-01").toList := by
  refine ⟨?_, ?_, fun y mo => rfl, fun y mo d => rfl, extractValue12, rfl⟩
  · intro m r h
    obtain ⟨lo, q1v, q3v, hi, _, _, _, _, hre⟩ := mkValueRow_eq h
    rw [hre]
  · intro m r h
    obtain ⟨price, _, hre⟩ := mkSingleRow_eq h
    rw [hre]

/-- C10 witness: the month-plus-one date at the concrete month-12 match. -/
theorem c10_witness :
    valueRowMonth13.date = monthDateStr (parseNat valueMatch12.year) (parseNat valueMatch12.month) :=
  (c10_month_offset).1 valueMatch12 valueRowMonth13 mkValue12

end Scraper
